import Mathlib

/-!
Verification of the track subsystem (`picard/track.py`): file linkage,
metadata synchronization, the folksonomy-tag-to-genre aggregation, and the
asynchronous load/callback controller of `NonAlbumTrack`.

Shallow embedding conventions:
* Python dicts of tag votes become association lists `List (String × Int)`.
* Metadata containers become total maps `String → String` (a missing tag
  reads as the empty string, as in picard's `Metadata`).
* Python 2 integer division `/` is floor division, embedded as `Int.fdiv`.
* Side effects (logging, UI notification, callback invocation, metadata
  pushes) are recorded as explicit event lists.
-/

namespace Picard

/-! ## Folksonomy-tag to genre aggregation (`Track._convert_folksonomy_tags_to_genre`) -/

/-- The module-level `_TRANSLATE_TAGS` dictionary from `picard/track.py`. -/
def translateTagsTable : List (String × String) :=
  [("hip hop", "Hip-Hop"), ("synth-pop", "Synthpop"), ("electronica", "Electronic")]

/-- Character-wise model of Python's `str.title()`: the first alphabetic
character of every alphabetic run is upper-cased, the rest lower-cased. -/
def titleChars : Bool → List Char → List Char
  | _, [] => []
  | prev, c :: cs =>
    (if c.isAlpha then (if prev then c.toLower else c.toUpper) else c) :: titleChars c.isAlpha cs

/-- Python's `name.title()`. -/
def pyTitle (s : String) : String := String.mk (titleChars false s.data)

/-- `_TRANSLATE_TAGS.get(name, name.title())` from `picard/track.py`. -/
def translateTag (name : String) : String :=
  match (translateTagsTable.find? (fun p => p.1 == name)) with
  | some p => p.2
  | none => pyTitle name

/-- Modelled from the spec: the well-known various-artists sentinel
(`VARIOUS_ARTISTS_ID`, defined in `picard/const.py`, which is not among the
sources); only its identity is ever used. -/
def variousArtistsId : String := "89ad4ac3-39f7-470e-963a-56509c546377"

/-- Modelled from the spec: `merge_folksonomy_tags` (defined on `DataObject`
in `picard/dataobj.py`, not among the sources). Per the spec, merging a
source collection into the accumulator sums counts per name; names not
present in the accumulator are added. -/
def merge_folksonomy_tags (acc : List (String × Int)) (src : List (String × Int)) :
    List (String × Int) :=
  src.foldl (fun a p =>
    if a.any (fun q => q.1 == p.1) then
      a.map (fun q => if q.1 == p.1 then (q.1, q.2 + p.2) else q)
    else a ++ [p]) acc

/-- The inputs the aggregation reads: the track's own tag votes, the owning
album's, the release group's (if the album has one), the `artists_tags`
option, the track's `musicbrainz_albumartistid` metadata value, and the
tag-vote collections of the track-level and album-level artists. -/
structure GenreInput where
  trackTags : List (String × Int)
  albumTags : List (String × Int)
  releaseGroupTags : Option (List (String × Int))
  artistsTagsSetting : Bool
  albumArtistId : String
  trackArtistTags : List (List (String × Int))
  albumArtistTags : List (List (String × Int))

/-- Steps 1–3 of the aggregation (`track.py` lines 174–177): the track's tags
merged with the album's and, when present, the release group's. -/
def baseTags (i : GenreInput) : List (String × Int) :=
  let t := merge_folksonomy_tags i.trackTags i.albumTags
  match i.releaseGroupTags with
  | some rg => merge_folksonomy_tags t rg
  | none => t

/-- The merge phase of `_convert_folksonomy_tags_to_genre` (`track.py` lines
174–185), including the artist-tag fallback for empty accumulators. -/
def combinedTags (i : GenreInput) : List (String × Int) :=
  let tags := baseTags i
  if tags.isEmpty && i.artistsTagsSetting then
    if i.albumArtistId = variousArtistsId then
      i.trackArtistTags.foldl merge_folksonomy_tags tags
    else
      i.albumArtistTags.foldl merge_folksonomy_tags tags
  else tags

/-- Line 187: drop every name whose merged count is zero or lower. -/
def filterPositive (tags : List (String × Int)) : List (String × Int) :=
  tags.filter (fun p => decide (0 < p.2))

/-- Line 191: `max(tags.values())` (the guard `if not tags: return` makes the
empty case unreachable in the source; it is given the junk value 0 here). -/
def maxCount : List (String × Int) → Int
  | [] => 0
  | p :: rest => rest.foldl (fun m q => max m q.2) p.2

/-- Lines 192–194: the `(100 * count / maxcount, name)` list, with Python 2's
floor division embedded as `Int.fdiv`. -/
def mkTaglist (tags : List (String × Int)) : List (Int × String) :=
  tags.map (fun p => ((100 * p.2).fdiv (maxCount tags), p.1))

/-- The order `taglist.sort(reverse=True)` sorts into: `a` may precede `b`
iff `(a.score, a.name) ≥ (b.score, b.name)` lexicographically, exactly
Python's descending tuple comparison. -/
def tagDescLE (a b : Int × String) : Bool :=
  decide (b.1 < a.1 ∨ (a.1 = b.1 ∧ b.2 ≤ a.2))

/-- Line 195: `taglist.sort(reverse=True)`. -/
def sortTaglist (l : List (Int × String)) : List (Int × String) :=
  l.mergeSort tagDescLE

/-- `Track._get_ignored_folksonomy_tags` (`track.py` lines 213–218): the
`ignore_tags` option split on commas, each part stripped and lower-cased;
the empty setting yields the empty list. -/
def get_ignored_folksonomy_tags (ignoreSetting : String) : List String :=
  if ignoreSetting = "" then []
  else (ignoreSetting.splitOn ",").map (fun s => s.trim.toLower)

/-- The genre-building loop (`track.py` lines 201–207) over the truncated
ranked list: ignored names are skipped (`continue`), the first entry whose
score is below `min_tag_usage` ends the loop (`break`), surviving names are
translated or title-cased and appended. -/
def genreLoop (ignore : List String) (minusage : Int) : List (Int × String) → List String
  | [] => []
  | (usage, name) :: rest =>
    if name.toLower ∈ ignore then genreLoop ignore minusage rest
    else if usage < minusage then []
    else translateTag name :: genreLoop ignore minusage rest

/-- Lines 208–210: a non-empty `join_tags` setting collapses the genre list
into one joined string. -/
def applyJoinTags (joinSetting : String) (genre : List String) : List String :=
  if joinSetting = "" then genre else [joinSetting.intercalate genre]

/-- `Track._convert_folksonomy_tags_to_genre` end to end; `none` is the early
return at line 189 (no `genre` written), `some g` means `metadata['genre']`
is set to `g`. -/
def convert_folksonomy_tags_to_genre (i : GenreInput) (maxtags : Nat) (minusage : Int)
    (ignoreSetting joinSetting : String) : Option (List String) :=
  let tags := filterPositive (combinedTags i)
  if tags.isEmpty then none
  else
    some (applyJoinTags joinSetting
      (genreLoop (get_ignored_folksonomy_tags ignoreSetting) minusage
        ((sortTaglist (mkTaglist tags)).take maxtags)))

/-! ## File linkage and metadata synchronization (`Track.add_file`,
`Track.update_file_metadata`, `Track.remove_file`) -/

/-- A linked file's mutable state: its working metadata and its original
(pre-tagging) metadata, each a total map from tag name to value. -/
structure FileState where
  md : String → String
  origMd : String → String

/-- The state touched by the linkage operations: the track's linked-file
sequence and count, the track's canonical metadata, every file's state
(indexed by file id), and the stream of album notifications — `(true, f)`
for `album._add_file`, `(false, f)` for `album._remove_file` (the album side
is modelled from the spec: `picard/album.py` is not among the sources, so a
notification is recorded as an event rather than interpreted). -/
structure SyncState where
  linkedFiles : List Nat
  numLinkedFiles : Int
  trackMd : String → String
  files : Nat → FileState
  albumNotifications : List (Bool × Nat)

/-- Modelled from the spec: `file.copy_metadata(track.metadata)` followed by
the `~extension` re-application (`track.py` lines 68–69); `copy_metadata`
itself lives in `picard/file.py`, and per the spec copies the given
container onto the file's working metadata wholesale. -/
def pushedMd (trackMd : String → String) (f : FileState) : String → String :=
  fun k => if k = "~extension" then f.origMd "~extension" else trackMd k

/-- `Track.update_file_metadata` (`track.py` lines 65–72): a no-op when the
file is not linked, otherwise the synchronization push onto that file. -/
def update_file_metadata (s : SyncState) (fid : Nat) : SyncState :=
  if fid ∈ s.linkedFiles then
    { s with files := fun j =>
        if j = fid then
          { md := pushedMd s.trackMd (s.files fid), origMd := (s.files fid).origMd }
        else s.files j }
  else s

/-- `Track.add_file` (`track.py` lines 58–63): append and count only when
not yet linked, then — unconditionally — notify the album and push. -/
def add_file (s : SyncState) (fid : Nat) : SyncState :=
  let s1 :=
    if fid ∈ s.linkedFiles then s
    else { s with linkedFiles := s.linkedFiles ++ [fid],
                  numLinkedFiles := s.numLinkedFiles + 1 }
  let s2 := { s1 with albumNotifications := s1.albumNotifications ++ [(true, fid)] }
  update_file_metadata s2 fid

/-- `Track.remove_file` (`track.py` lines 74–81): a no-op when not linked,
otherwise unlink, decrement, restore the file's original metadata
(`file.copy_metadata(file.orig_metadata)`) and notify the album. -/
def remove_file (s : SyncState) (fid : Nat) : SyncState :=
  if fid ∈ s.linkedFiles then
    { s with
      linkedFiles := s.linkedFiles.erase fid,
      numLinkedFiles := s.numLinkedFiles - 1,
      files := fun j =>
        if j = fid then
          { md := (s.files fid).origMd, origMd := (s.files fid).origMd }
        else s.files j,
      albumNotifications := s.albumNotifications ++ [(false, fid)] }
  else s

/-- A sequence of linkage operations, for stating the registry invariants. -/
inductive FileOp where
  | add (fid : Nat)
  | remove (fid : Nat)
deriving DecidableEq

/-- Run a sequence of `add_file` / `remove_file` calls. -/
def applyFileOps (s : SyncState) : List FileOp → SyncState
  | [] => s
  | FileOp.add f :: rest => applyFileOps (add_file s f) rest
  | FileOp.remove f :: rest => applyFileOps (remove_file s f) rest

/-- The set of distinct files added and not since removed, the reference
value for the registry invariant. -/
def distinctLinked (s : Finset Nat) : List FileOp → Finset Nat
  | [] => s
  | FileOp.add f :: rest => distinctLinked (insert f s) rest
  | FileOp.remove f :: rest => distinctLinked (s.erase f) rest

/-- An initial track state: no linked files, no notifications yet. -/
def mkInitSync (trackMd : String → String) (files : Nat → FileState) : SyncState :=
  { linkedFiles := [], numLinkedFiles := 0, trackMd := trackMd, files := files,
    albumNotifications := [] }

/-! ## NonAlbumTrack load controller (`NonAlbumTrack.load`,
`_recording_request_finished`, `_parse_recording`, `run_when_loaded`) -/

/-- The `NonAlbumTrack` state the controller mutates: the `loaded` flag, the
single callback slot (callbacks are opaque, identified by a number), the
track's metadata and its linked files. -/
structure NatState where
  loaded : Bool
  callback : Option Nat
  md : String → String
  linkedFiles : List Nat

/-- Observable events of the load controller, in program order: an error
log, the `loaded = True` assignment, a callback invocation, the
`tagger.nats.update(True)` observer notification, a metadata push to one
linked file, and the issue of the remote fetch. -/
inductive NatEvent where
  | logError
  | setLoaded
  | invokeCallback (c : Nat)
  | notifyNats
  | pushFile (f : Nat)
  | issueFetch
deriving DecidableEq

/-- `NonAlbumTrack._parse_recording` (`track.py` lines 273–291) after the
external translation pipeline (translator, `_customize_metadata`, metadata
processors, optional tagger script) has produced the merged metadata `m`:
store `m`, set `loaded`, fire and clear the pending callback if any, notify
observers. -/
def parse_recording (m : String → String) (s : NatState) : NatState × List NatEvent :=
  let s1 := { s with md := m, loaded := true }
  match s1.callback with
  | some c =>
    ({ s1 with callback := none },
     [NatEvent.setLoaded, NatEvent.invokeCallback c, NatEvent.notifyNats])
  | none => (s1, [NatEvent.setLoaded, NatEvent.notifyNats])

/-- `NonAlbumTrack._recording_request_finished` (`track.py` lines 261–271).
`error` is the request's error flag; `translated` is the outcome of
extracting the recording and running the translation pipeline, modelled
from the spec as atomic: `none` when it raises (caught and logged at this
boundary, no merge), `some m` when it yields merged metadata `m`. On
success the parse runs first, then the result is pushed to every linked
file. -/
def recording_request_finished (error : Bool) (translated : Option (String → String))
    (s : NatState) : NatState × List NatEvent :=
  if error then (s, [NatEvent.logError])
  else
    match translated with
    | none => (s, [NatEvent.logError])
    | some m =>
      let r := parse_recording m s
      (r.1, r.2 ++ r.1.linkedFiles.map NatEvent.pushFile)

/-- `NonAlbumTrack.load` (`track.py` lines 236–259), state part: copy the
album's metadata, set the placeholder title, clear `loaded`, notify
observers, issue the fetch. -/
def nat_load (albumMd : String → String) (s : NatState) : NatState × List NatEvent :=
  ({ s with
      md := fun k => if k = "title" then "[loading track information]" else albumMd k,
      loaded := false },
   [NatEvent.notifyNats, NatEvent.issueFetch])

/-- `NonAlbumTrack.run_when_loaded` (`track.py` lines 293–297). -/
def run_when_loaded (s : NatState) (f : Nat) : NatState × List NatEvent :=
  if s.loaded then (s, [NatEvent.invokeCallback f])
  else ({ s with callback := some f }, [])

/-- Recognizes callback-invocation events. -/
def isInvoke : NatEvent → Bool
  | NatEvent.invokeCallback _ => true
  | _ => false

/-! ## Concrete sample inputs, used to instantiate the theorems below -/

/-- A genre input with votes on track and album and no artist fallback. -/
def sampleGenreInput : GenreInput :=
  { trackTags := [("rock", 5)], albumTags := [("rock", 3), ("pop", 2)],
    releaseGroupTags := none, artistsTagsSetting := false, albumArtistId := "someband",
    trackArtistTags := [], albumArtistTags := [] }

/-- A genre input with no track/album/release-group votes, the artist-tags
option on, and a various-artists album artist. -/
def fallbackGenreInput : GenreInput :=
  { trackTags := [], albumTags := [], releaseGroupTags := some [],
    artistsTagsSetting := true, albumArtistId := variousArtistsId,
    trackArtistTags := [[("jazz", 3)]], albumArtistTags := [[("rock", 1)]] }

/-- A file whose original metadata carries the extension "mp3". -/
def sampleFile : FileState :=
  { md := fun _ => "w", origMd := fun k => if k = "~extension" then "mp3" else "o" }

/-- A track state with file 0 linked (and one past album notification). -/
def sampleSync : SyncState :=
  { linkedFiles := [0], numLinkedFiles := 1,
    trackMd := fun k => if k = "artist" then "X" else "",
    files := fun _ => sampleFile, albumNotifications := [(true, 0)] }

/-- An already loaded `NonAlbumTrack`. -/
def sampleNatLoaded : NatState :=
  { loaded := true, callback := none, md := fun _ => "", linkedFiles := [] }

/-- An unloaded `NonAlbumTrack` with a pending callback and one linked file. -/
def sampleNatUnloaded : NatState :=
  { loaded := false, callback := some 0, md := fun _ => "", linkedFiles := [5] }

/-- A sample merged-metadata outcome of the translation pipeline. -/
def sampleMd : String → String := fun _ => "m"

/-- A sample merged tag accumulator (all counts positive). -/
def sampleTags : List (String × Int) := [("rock", 8), ("pop", 2)]

/-- One entry of `sampleTags`. -/
def samplePair : String × Int := ("pop", 2)

/-! ## Helper lemmas -/

theorem filter_isInvoke_map_pushFile (l : List Nat) :
    (l.map NatEvent.pushFile).filter isInvoke = [] := by
  induction l with
  | nil => rfl
  | cons a l ih => simp [isInvoke, ih]

theorem tagDescLE_trans (a b c : Int × String)
    (hab : tagDescLE a b = true) (hbc : tagDescLE b c = true) : tagDescLE a c = true := by
  simp only [tagDescLE, decide_eq_true_eq] at hab hbc ⊢
  rcases hab with h1 | ⟨h1, h1s⟩ <;> rcases hbc with h2 | ⟨h2, h2s⟩
  · exact Or.inl (h2.trans h1)
  · exact Or.inl (h2 ▸ h1)
  · exact Or.inl (h1 ▸ h2)
  · exact Or.inr ⟨h1.trans h2, h2s.trans h1s⟩

theorem tagDescLE_total (a b : Int × String) : (tagDescLE a b || tagDescLE b a) = true := by
  simp only [tagDescLE, Bool.or_eq_true, decide_eq_true_eq]
  rcases lt_trichotomy a.1 b.1 with h | h | h
  · exact Or.inr (Or.inl h)
  · rcases le_total b.2 a.2 with h2 | h2
    · exact Or.inl (Or.inr ⟨h, h2⟩)
    · exact Or.inr (Or.inr ⟨h.symm, h2⟩)
  · exact Or.inl (Or.inl h)

theorem sortTaglist_pairwise (l : List (Int × String)) :
    (sortTaglist l).Pairwise (fun a b => tagDescLE a b = true) :=
  List.sorted_mergeSort tagDescLE_trans tagDescLE_total l

theorem sortTaglist_scores_sorted (l : List (Int × String)) :
    (sortTaglist l).Pairwise (fun a b => b.1 ≤ a.1) := by
  refine (sortTaglist_pairwise l).imp ?_
  intro a b h
  simp only [tagDescLE, decide_eq_true_eq] at h
  rcases h with h | ⟨h, _⟩
  · exact h.le
  · exact h.ge

theorem sortTaglist_mem_iff (l : List (Int × String)) (p : Int × String) :
    p ∈ sortTaglist l ↔ p ∈ l :=
  (List.mergeSort_perm l tagDescLE).mem_iff

theorem le_foldl_max (l : List (String × Int)) (init : Int) :
    init ≤ l.foldl (fun m q => max m q.2) init := by
  induction l generalizing init with
  | nil => exact le_refl _
  | cons q rest ih => exact le_trans (le_max_left init q.2) (ih (max init q.2))

theorem maxCount_pos (l : List (String × Int)) (hne : l ≠ [])
    (hpos : ∀ p ∈ l, 0 < p.2) : 0 < maxCount l := by
  match l, hne with
  | p :: rest, _ =>
    have h1 : 0 < p.2 := hpos p (List.mem_cons_self p rest)
    exact lt_of_lt_of_le h1 (le_foldl_max rest p.2)

theorem fdiv_eq_ratFloor (a : Int) {m : Int} (hm : 0 < m) :
    a.fdiv m = ⌊(a : ℚ) / (m : ℚ)⌋ := by
  rw [Int.fdiv_eq_ediv a hm.le]
  have h1 : ((m.toNat : ℤ)) = m := Int.toNat_of_nonneg hm.le
  have h2 : ((m.toNat : ℕ) : ℚ) = (m : ℚ) := by
    rw [← h1]
    push_cast
    rfl
  rw [← h2, Rat.floor_intCast_div_natCast a m.toNat, h1]

theorem genreLoop_eq_nil_of_all_below (ignore : List String) (minusage : Int)
    (l : List (Int × String)) (h : ∀ p ∈ l, p.1 < minusage) :
    genreLoop ignore minusage l = [] := by
  induction l with
  | nil => rfl
  | cons p rest ih =>
    obtain ⟨u, name⟩ := p
    have hu : u < minusage := h (u, name) (List.mem_cons_self _ _)
    have hrest : ∀ q ∈ rest, q.1 < minusage := fun q hq => h q (List.mem_cons_of_mem _ hq)
    by_cases hig : name.toLower ∈ ignore
    · simpa [genreLoop, hig] using ih hrest
    · simp [genreLoop, hig, hu]

theorem genreLoop_sorted_eq (ignore : List String) (minusage : Int)
    (l : List (Int × String)) (hsort : l.Pairwise (fun a b => b.1 ≤ a.1)) :
    genreLoop ignore minusage l
      = ((l.takeWhile (fun p => decide (minusage ≤ p.1))).filter
          (fun p => decide (p.2.toLower ∉ ignore))).map (fun p => translateTag p.2) := by
  induction l with
  | nil => rfl
  | cons p rest ih =>
    obtain ⟨u, name⟩ := p
    have hhead := (List.pairwise_cons.mp hsort).1
    have hrest := (List.pairwise_cons.mp hsort).2
    by_cases hu : minusage ≤ u
    · by_cases hig : name.toLower ∈ ignore
      · simp [genreLoop, hig, List.takeWhile_cons, hu, List.filter_cons, ih hrest]
      · simp [genreLoop, hig, not_lt.mpr hu, List.takeWhile_cons, hu, List.filter_cons,
              ih hrest]
    · have hall : ∀ q ∈ (u, name) :: rest, q.1 < minusage := by
        intro q hq
        rcases List.mem_cons.mp hq with h | h
        · rw [h]; exact not_le.mp hu
        · exact lt_of_le_of_lt (hhead q h) (not_le.mp hu)
      rw [genreLoop_eq_nil_of_all_below ignore minusage _ hall]
      simp [List.takeWhile_cons, not_le.mp hu]

theorem update_file_metadata_linkage (s : SyncState) (fid : Nat) :
    (update_file_metadata s fid).linkedFiles = s.linkedFiles
    ∧ (update_file_metadata s fid).numLinkedFiles = s.numLinkedFiles
    ∧ (update_file_metadata s fid).albumNotifications = s.albumNotifications := by
  unfold update_file_metadata
  split <;> exact ⟨rfl, rfl, rfl⟩

theorem add_file_linked_of_mem (s : SyncState) (fid : Nat) (h : fid ∈ s.linkedFiles) :
    (add_file s fid).linkedFiles = s.linkedFiles
    ∧ (add_file s fid).numLinkedFiles = s.numLinkedFiles := by
  unfold add_file
  simp only [if_pos h]
  exact ⟨(update_file_metadata_linkage _ _).1, (update_file_metadata_linkage _ _).2.1⟩

theorem add_file_linked_of_not_mem (s : SyncState) (fid : Nat) (h : fid ∉ s.linkedFiles) :
    (add_file s fid).linkedFiles = s.linkedFiles ++ [fid]
    ∧ (add_file s fid).numLinkedFiles = s.numLinkedFiles + 1 := by
  unfold add_file
  simp only [if_neg h]
  exact ⟨(update_file_metadata_linkage _ _).1, (update_file_metadata_linkage _ _).2.1⟩

theorem remove_file_linked_of_mem (s : SyncState) (fid : Nat) (h : fid ∈ s.linkedFiles) :
    (remove_file s fid).linkedFiles = s.linkedFiles.erase fid
    ∧ (remove_file s fid).numLinkedFiles = s.numLinkedFiles - 1 := by
  unfold remove_file
  rw [if_pos h]
  exact ⟨rfl, rfl⟩

theorem remove_file_of_not_mem (s : SyncState) (fid : Nat) (h : fid ∉ s.linkedFiles) :
    remove_file s fid = s := by
  unfold remove_file
  simp only [if_neg h]

theorem applyFileOps_inv (ops : List FileOp) (s : SyncState)
    (h1 : s.numLinkedFiles = (s.linkedFiles.length : Int)) (h2 : s.linkedFiles.Nodup) :
    (applyFileOps s ops).numLinkedFiles = ((applyFileOps s ops).linkedFiles.length : Int)
    ∧ (applyFileOps s ops).linkedFiles.Nodup
    ∧ (applyFileOps s ops).linkedFiles.toFinset = distinctLinked s.linkedFiles.toFinset ops := by
  induction ops generalizing s with
  | nil => exact ⟨h1, h2, rfl⟩
  | cons op rest ih =>
    cases op with
    | add f =>
      simp only [applyFileOps, distinctLinked]
      by_cases hf : f ∈ s.linkedFiles
      · obtain ⟨e1, e2⟩ := add_file_linked_of_mem s f hf
        have hfin : insert f s.linkedFiles.toFinset = s.linkedFiles.toFinset :=
          Finset.insert_eq_self.mpr (List.mem_toFinset.mpr hf)
        have := ih (add_file s f) (by rw [e1, e2]; exact h1) (by rw [e1]; exact h2)
        refine ⟨this.1, this.2.1, ?_⟩
        rw [this.2.2, e1, hfin]
      · obtain ⟨e1, e2⟩ := add_file_linked_of_not_mem s f hf
        have hlen : (add_file s f).numLinkedFiles = ((add_file s f).linkedFiles.length : Int) := by
          rw [e1, e2, h1, List.length_append, List.length_singleton]
          omega
        have hnd : (add_file s f).linkedFiles.Nodup := by
          rw [e1]
          simp [List.nodup_append, h2, hf]
        have hfin : (add_file s f).linkedFiles.toFinset = insert f s.linkedFiles.toFinset := by
          rw [e1]
          ext x
          simp [or_comm]
        have := ih (add_file s f) hlen hnd
        exact ⟨this.1, this.2.1, by rw [this.2.2, hfin]⟩
    | remove f =>
      simp only [applyFileOps, distinctLinked]
      by_cases hf : f ∈ s.linkedFiles
      · obtain ⟨e1, e2⟩ := remove_file_linked_of_mem s f hf
        have hpos : 1 ≤ s.linkedFiles.length := List.length_pos.mpr (List.ne_nil_of_mem hf)
        have hlen : (remove_file s f).numLinkedFiles
            = ((remove_file s f).linkedFiles.length : Int) := by
          rw [e1, e2, h1, List.length_erase_of_mem hf]
          omega
        have hnd : (remove_file s f).linkedFiles.Nodup := by
          rw [e1]; exact h2.erase f
        have hfin : (remove_file s f).linkedFiles.toFinset = s.linkedFiles.toFinset.erase f := by
          rw [e1]
          ext x
          simp [h2.mem_erase_iff, Finset.mem_erase]
        have := ih (remove_file s f) hlen hnd
        exact ⟨this.1, this.2.1, by rw [this.2.2, hfin]⟩
      · have e : remove_file s f = s := remove_file_of_not_mem s f hf
        have hfin : s.linkedFiles.toFinset.erase f = s.linkedFiles.toFinset :=
          Finset.erase_eq_of_not_mem (fun hc => hf (List.mem_toFinset.mp hc))
        have := ih (remove_file s f) (by rw [e]; exact h1) (by rw [e]; exact h2)
        refine ⟨this.1, this.2.1, ?_⟩
        rw [this.2.2, e, hfin]

theorem update_file_metadata_trackMd (s : SyncState) (fid : Nat) :
    (update_file_metadata s fid).trackMd = s.trackMd := by
  unfold update_file_metadata
  split <;> rfl

theorem add_file_trackMd (s : SyncState) (fid : Nat) :
    (add_file s fid).trackMd = s.trackMd := by
  unfold add_file
  by_cases hg : fid ∈ s.linkedFiles
  · rw [if_pos hg]; exact update_file_metadata_trackMd _ _
  · rw [if_neg hg]; exact update_file_metadata_trackMd _ _

theorem add_file_albumNotifications (s : SyncState) (fid : Nat) :
    (add_file s fid).albumNotifications = s.albumNotifications ++ [(true, fid)] := by
  unfold add_file
  by_cases hg : fid ∈ s.linkedFiles
  · rw [if_pos hg]; exact (update_file_metadata_linkage _ _).2.2
  · rw [if_neg hg]; exact (update_file_metadata_linkage _ _).2.2

theorem add_file_files_self (s : SyncState) (fid : Nat) :
    (add_file s fid).files fid
      = { md := pushedMd s.trackMd (s.files fid), origMd := (s.files fid).origMd } := by
  by_cases hg : fid ∈ s.linkedFiles <;>
    simp [add_file, update_file_metadata, hg]

theorem add_file_files_other (s : SyncState) (fid j : Nat) (hj : j ≠ fid) :
    (add_file s fid).files j = s.files j := by
  by_cases hg : fid ∈ s.linkedFiles <;>
    simp [add_file, update_file_metadata, hg, hj]

/-! ## The claims -/

/-- C4: when a load attempt ends in failure — the remote fetch reports an
error, or the translation pipeline raises (modelled as `translated = none`)
— the completion handler leaves the track's entire state (metadata, `loaded`
flag, callback slot, linked files) unchanged and produces only a log event:
no callback is invoked, no push happens, and the track remains in its prior
state, eligible for a fresh `load()`. -/
theorem claim_C4 (s : NatState) (r : Option (String → String)) :
    recording_request_finished true r s = (s, [NatEvent.logError])
    ∧ recording_request_finished false none s = (s, [NatEvent.logError]) :=
  ⟨rfl, rfl⟩

/-- C6: `run_when_loaded` on a loaded track invokes the function
synchronously and does nothing else (in particular it issues no fetch); on
an unloaded track it stores the function as the single pending callback,
a second call before completion overwrites the first, and on the eventual
successful completion the only callback invocation in the whole event
trace is of the second function — the first is silently dropped. -/
theorem claim_C6 (s t : NatState) (f f₁ f₂ : Nat) (m : String → String)
    (hs : s.loaded = true) (ht : t.loaded = false) :
    run_when_loaded s f = (s, [NatEvent.invokeCallback f])
    ∧ (run_when_loaded t f₁).1.callback = some f₁
    ∧ (run_when_loaded (run_when_loaded t f₁).1 f₂).1.callback = some f₂
    ∧ ((recording_request_finished false (some m)
          (run_when_loaded (run_when_loaded t f₁).1 f₂).1).2.filter isInvoke)
        = [NatEvent.invokeCallback f₂] := by
  refine ⟨by simp [run_when_loaded, hs], by simp [run_when_loaded, ht],
    by simp [run_when_loaded, ht], ?_⟩
  simp [run_when_loaded, ht, recording_request_finished, parse_recording,
    List.filter_append, filter_isInvoke_map_pushFile, isInvoke]

/-- Witness for C6 at concrete states. -/
theorem claim_C6_witness :
    run_when_loaded sampleNatLoaded 7 = (sampleNatLoaded, [NatEvent.invokeCallback 7])
    ∧ (run_when_loaded sampleNatUnloaded 1).1.callback = some 1
    ∧ (run_when_loaded (run_when_loaded sampleNatUnloaded 1).1 2).1.callback = some 2
    ∧ ((recording_request_finished false (some sampleMd)
          (run_when_loaded (run_when_loaded sampleNatUnloaded 1).1 2).1).2.filter isInvoke)
        = [NatEvent.invokeCallback 2] :=
  claim_C6 sampleNatLoaded sampleNatUnloaded 7 1 2 sampleMd rfl rfl

/-- C7: after any sequence of `add_file` / `remove_file` calls starting from
a freshly created track, `num_linked_files` equals `len(linked_files)`, the
linked-file sequence holds each file at most once, and `num_linked_files`
equals the number of distinct files added and not since removed (duplicate
adds change nothing). Since the op sequence is arbitrary, this holds at all
intermediate times as well. -/
theorem claim_C7 (trackMd : String → String) (files : Nat → FileState) (ops : List FileOp) :
    (applyFileOps (mkInitSync trackMd files) ops).numLinkedFiles
        = ((applyFileOps (mkInitSync trackMd files) ops).linkedFiles.length : Int)
    ∧ (applyFileOps (mkInitSync trackMd files) ops).linkedFiles.Nodup
    ∧ (applyFileOps (mkInitSync trackMd files) ops).numLinkedFiles
        = ((distinctLinked ∅ ops).card : Int) := by
  have h := applyFileOps_inv ops (mkInitSync trackMd files) rfl List.nodup_nil
  refine ⟨h.1, h.2.1, ?_⟩
  rw [h.1]
  rw [← List.toFinset_card_of_nodup h.2.1]
  have e : (mkInitSync trackMd files).linkedFiles.toFinset = (∅ : Finset Nat) := rfl
  rw [h.2.2, e]

/-- C9: the artist-tag fallback is consulted only when the accumulator of
track, album and release-group votes is empty and the `artists_tags` option
is on (input `i` shows the merge result is exactly the base accumulator
otherwise); when it is consulted (input `j`), the track-level artists' votes
are merged if the album artist is the various-artists sentinel, the
album-level artists' votes otherwise. -/
theorem claim_C9 (i j : GenreInput)
    (hi : ¬(baseTags i = [] ∧ i.artistsTagsSetting = true))
    (hj : baseTags j = [] ∧ j.artistsTagsSetting = true) :
    combinedTags i = baseTags i
    ∧ combinedTags j
        = (if j.albumArtistId = variousArtistsId then j.trackArtistTags
           else j.albumArtistTags).foldl merge_folksonomy_tags (baseTags j) := by
  constructor
  · have hb : ((baseTags i).isEmpty && i.artistsTagsSetting) = false := by
      by_cases hbase : baseTags i = []
      · have hset : i.artistsTagsSetting = false := by
          rcases Bool.eq_false_or_eq_true i.artistsTagsSetting with h2 | h2
          · exact absurd ⟨hbase, h2⟩ hi
          · exact h2
        simp [hset]
      · simp [List.isEmpty_iff, hbase]
    simp [combinedTags, hb]
  · have hb : ((baseTags j).isEmpty && j.artistsTagsSetting) = true := by
      simp [List.isEmpty_iff.mpr hj.1, hj.2]
    simp only [combinedTags, hb, if_true]
    split <;> rfl

/-- Witness for C9: `sampleGenreInput` has a non-empty accumulator, so no
fallback; `fallbackGenreInput` triggers the various-artists fallback. -/
theorem claim_C9_witness :
    combinedTags sampleGenreInput = baseTags sampleGenreInput
    ∧ combinedTags fallbackGenreInput
        = (if fallbackGenreInput.albumArtistId = variousArtistsId then
             fallbackGenreInput.trackArtistTags
           else fallbackGenreInput.albumArtistTags).foldl merge_folksonomy_tags
            (baseTags fallbackGenreInput) :=
  claim_C9 sampleGenreInput fallbackGenreInput (by decide) (by decide)

/-- C10: the normalization's division `100 * count / maxcount` is never a
division by zero — whenever it is reached (i.e. the accumulator filtered to
positive counts is non-empty, the empty case having returned early), the
maximum remaining count is strictly positive. -/
theorem claim_C10 (i : GenreInput) (h : filterPositive (combinedTags i) ≠ []) :
    0 < maxCount (filterPositive (combinedTags i)) := by
  refine maxCount_pos _ h ?_
  intro p hp
  simpa using List.of_mem_filter hp

/-- Witness for C10 at a concrete input. -/
theorem claim_C10_witness :
    filterPositive (combinedTags sampleGenreInput) ≠ []
    ∧ 0 < maxCount (filterPositive (combinedTags sampleGenreInput)) :=
  ⟨by decide, claim_C10 sampleGenreInput (by decide)⟩

/-- C1: on the ranked list truncated to the top `max_tags` entries (which is
sorted by descending score), the genre loop skips every entry whose
lower-cased name is in the ignore list while continuing with the next entry
(second conjunct), and the first entry whose score falls below
`min_tag_usage` together with everything after it is excluded from the
result: the output is exactly the non-ignored, translated entries of the
`takeWhile (score ≥ min_tag_usage)` prefix (first conjunct). -/
theorem claim_C1 (tags : List (String × Int)) (maxtags : Nat) (ignore : List String)
    (minusage u : Int) (name : String) (rest : List (Int × String))
    (hig : name.toLower ∈ ignore) :
    genreLoop ignore minusage ((sortTaglist (mkTaglist tags)).take maxtags)
      = ((((sortTaglist (mkTaglist tags)).take maxtags).takeWhile
            (fun p => decide (minusage ≤ p.1))).filter
          (fun p => decide (p.2.toLower ∉ ignore))).map (fun p => translateTag p.2)
    ∧ genreLoop ignore minusage ((u, name) :: rest) = genreLoop ignore minusage rest := by
  constructor
  · exact genreLoop_sorted_eq ignore minusage _
      (List.Pairwise.sublist (List.take_sublist _ _) (sortTaglist_scores_sorted (mkTaglist tags)))
  · simp [genreLoop, hig]

/-- Witness for C1 at concrete inputs (the ignore list contains the
lower-cased form of the skipped entry's name). -/
theorem claim_C1_witness :
    genreLoop ["jazz".toLower] 30 ((sortTaglist (mkTaglist sampleTags)).take 10)
      = ((((sortTaglist (mkTaglist sampleTags)).take 10).takeWhile
            (fun p => decide ((30 : Int) ≤ p.1))).filter
          (fun p => decide (p.2.toLower ∉ ["jazz".toLower]))).map (fun p => translateTag p.2)
    ∧ genreLoop ["jazz".toLower] 30 ((5, "jazz") :: [])
        = genreLoop ["jazz".toLower] 30 [] :=
  claim_C1 sampleTags 10 ["jazz".toLower] 30 5 "jazz" [] (List.mem_singleton_self _)

/-- C2: in the normalization step, for every non-empty accumulator of
positive counts, each tag's entry in the ranked list carries the score
`100 * count / maxcount` computed by exact integer floor division — it
equals the rational floor `⌊100 * count / maxcount⌋`, not a rounding — and
the ranked list is pairwise ordered by descending `(score, name)`, so equal
scores are ordered by descending name. -/
theorem claim_C2 (tags : List (String × Int)) (p : String × Int)
    (hne : tags ≠ []) (hpos : ∀ q ∈ tags, 0 < q.2) (hp : p ∈ tags) :
    ((100 * p.2).fdiv (maxCount tags), p.1) ∈ sortTaglist (mkTaglist tags)
    ∧ (100 * p.2).fdiv (maxCount tags) = ⌊(100 * (p.2 : ℚ)) / ((maxCount tags : Int) : ℚ)⌋
    ∧ (sortTaglist (mkTaglist tags)).Pairwise
        (fun a b => b.1 < a.1 ∨ (a.1 = b.1 ∧ b.2 ≤ a.2)) := by
  refine ⟨?_, ?_, ?_⟩
  · exact (sortTaglist_mem_iff _ _).mpr (List.mem_map.mpr ⟨p, hp, rfl⟩)
  · have hm : 0 < maxCount tags := maxCount_pos tags hne hpos
    rw [fdiv_eq_ratFloor _ hm]
    congr 1
    push_cast
    ring
  · refine (sortTaglist_pairwise _).imp ?_
    intro a b h
    exact of_decide_eq_true h

/-- Witness for C2 at a concrete accumulator and entry. -/
theorem claim_C2_witness :
    ((100 * samplePair.2).fdiv (maxCount sampleTags), samplePair.1)
        ∈ sortTaglist (mkTaglist sampleTags)
    ∧ (100 * samplePair.2).fdiv (maxCount sampleTags)
        = ⌊(100 * (samplePair.2 : ℚ)) / ((maxCount sampleTags : Int) : ℚ)⌋
    ∧ (sortTaglist (mkTaglist sampleTags)).Pairwise
        (fun a b => b.1 < a.1 ∨ (a.1 = b.1 ∧ b.2 ≤ a.2)) :=
  claim_C2 sampleTags samplePair (by decide) (by decide) (by decide)

/-- C3 (amended): on a successful fetch of a `NonAlbumTrack` with a pending
callback, the handler sets `loaded = true`, invokes the callback exactly
once (the only invocation in the trace) and clears the slot, notifies
observers, and only then pushes the merged result to every linked file —
the pushes come after `loaded` is set and after the callback fires, not
before as the original claim stated. -/
theorem claim_C3 (s : NatState) (m : String → String) (c : Nat) (h : s.callback = some c) :
    recording_request_finished false (some m) s
      = ({ loaded := true, callback := none, md := m, linkedFiles := s.linkedFiles },
         [NatEvent.setLoaded, NatEvent.invokeCallback c, NatEvent.notifyNats]
           ++ s.linkedFiles.map NatEvent.pushFile)
    ∧ ((recording_request_finished false (some m) s).2.filter isInvoke)
        = [NatEvent.invokeCallback c] := by
  obtain ⟨lo, cb, md, lf⟩ := s
  simp only at h
  subst h
  refine ⟨rfl, ?_⟩
  simp [recording_request_finished, parse_recording, List.filter_append,
    filter_isInvoke_map_pushFile, isInvoke]

/-- Witness for C3 at a concrete state. -/
theorem claim_C3_witness :
    recording_request_finished false (some sampleMd) sampleNatUnloaded
      = ({ loaded := true, callback := none, md := sampleMd,
           linkedFiles := sampleNatUnloaded.linkedFiles },
         [NatEvent.setLoaded, NatEvent.invokeCallback 0, NatEvent.notifyNats]
           ++ sampleNatUnloaded.linkedFiles.map NatEvent.pushFile)
    ∧ ((recording_request_finished false (some sampleMd) sampleNatUnloaded).2.filter isInvoke)
        = [NatEvent.invokeCallback 0] :=
  claim_C3 sampleNatUnloaded sampleMd 0 rfl

/-- Counterexample to C3 as stated: at a concrete state with one linked file
and a pending callback, the success trace is `[setLoaded, invokeCallback 0,
notifyNats, pushFile 5]` — the push to the linked file does NOT precede the
`loaded = true` assignment (nor the callback invocation), contradicting
"the merged result is pushed to every linked file before loaded is set to
true and before the pending callback is invoked". -/
theorem claim_C3_counterexample :
    (recording_request_finished false (some sampleMd) sampleNatUnloaded).2
      = [NatEvent.setLoaded, NatEvent.invokeCallback 0, NatEvent.notifyNats,
         NatEvent.pushFile 5]
    ∧ ¬ ((recording_request_finished false (some sampleMd) sampleNatUnloaded).2.indexOf
            (NatEvent.pushFile 5)
          < (recording_request_finished false (some sampleMd) sampleNatUnloaded).2.indexOf
            NatEvent.setLoaded) :=
  ⟨rfl, by decide⟩

/-- C5 (amended): `add_file` on an already linked file leaves the
linked-file sequence, the count and the track metadata unchanged, but it is
not a complete no-op: the owning album is notified of the association again
and the track's metadata is re-pushed onto the file (other files are
untouched). -/
theorem claim_C5 (s : SyncState) (fid j : Nat) (h : fid ∈ s.linkedFiles) (hj : j ≠ fid) :
    (add_file s fid).linkedFiles = s.linkedFiles
    ∧ (add_file s fid).numLinkedFiles = s.numLinkedFiles
    ∧ (add_file s fid).trackMd = s.trackMd
    ∧ (add_file s fid).albumNotifications = s.albumNotifications ++ [(true, fid)]
    ∧ (add_file s fid).files fid
        = { md := pushedMd s.trackMd (s.files fid), origMd := (s.files fid).origMd }
    ∧ (add_file s fid).files j = s.files j :=
  ⟨(add_file_linked_of_mem s fid h).1, (add_file_linked_of_mem s fid h).2,
   add_file_trackMd s fid, add_file_albumNotifications s fid,
   add_file_files_self s fid, add_file_files_other s fid j hj⟩

/-- Witness for C5 at a concrete state with file 0 already linked. -/
theorem claim_C5_witness :
    (add_file sampleSync 0).linkedFiles = sampleSync.linkedFiles
    ∧ (add_file sampleSync 0).numLinkedFiles = sampleSync.numLinkedFiles
    ∧ (add_file sampleSync 0).trackMd = sampleSync.trackMd
    ∧ (add_file sampleSync 0).albumNotifications = sampleSync.albumNotifications ++ [(true, 0)]
    ∧ (add_file sampleSync 0).files 0
        = { md := pushedMd sampleSync.trackMd (sampleSync.files 0),
            origMd := (sampleSync.files 0).origMd }
    ∧ (add_file sampleSync 0).files 3 = sampleSync.files 3 :=
  claim_C5 sampleSync 0 3 (by decide) (by decide)

/-- Counterexample to C5 as stated: adding file 0 twice to a fresh track is
not a no-op on the second call — the album's notification stream grows by a
second `_add_file` notification, so the owning album's association state is
NOT left unchanged by the duplicate call. -/
theorem claim_C5_counterexample :
    (add_file (add_file (mkInitSync sampleMd (fun _ => sampleFile)) 0) 0).albumNotifications
      ≠ (add_file (mkInitSync sampleMd (fun _ => sampleFile)) 0).albumNotifications := by
  decide

/-- C8: the synchronization push is a no-op when the file is not linked;
after `add_file` the file's working metadata agrees with the track's
canonical metadata on every field other than `~extension` (witnessed here
field by field: `k` is any non-extension key), while its `~extension` field
equals the file's own original extension value. -/
theorem claim_C8 (s t : SyncState) (fid g : Nat) (k : String)
    (h : fid ∉ s.linkedFiles) (hk : k ≠ "~extension") :
    update_file_metadata s fid = s
    ∧ ((add_file t g).files g).md "~extension" = (t.files g).origMd "~extension"
    ∧ ((add_file t g).files g).md k = t.trackMd k := by
  refine ⟨?_, ?_, ?_⟩
  · unfold update_file_metadata
    rw [if_neg h]
  · rw [add_file_files_self]
    simp [pushedMd]
  · rw [add_file_files_self]
    simp [pushedMd, hk]

/-- Witness for C8: file 3 is not linked in `sampleSync`, so the push is a
no-op on it; after re-adding file 0 its working metadata has the track's
"artist" value and its own original "~extension" value. -/
theorem claim_C8_witness :
    update_file_metadata sampleSync 3 = sampleSync
    ∧ ((add_file sampleSync 0).files 0).md "~extension"
        = (sampleSync.files 0).origMd "~extension"
    ∧ ((add_file sampleSync 0).files 0).md "artist" = sampleSync.trackMd "artist" :=
  claim_C8 sampleSync sampleSync 3 0 "artist" (by decide) (by decide)

end Picard
